import Mathlib

/-
  Shallow embedding of `src/main.py` (restaurant order management).

  The Python program is dynamically typed and loads values straight out of
  JSON documents, so menu-item fields and customer names are modelled as
  JSON values (`JVal`).  Table numbers are Python ints entered via `int(...)`
  or read from the orders file; they are modelled as `Int`.  `Restaurant.orders`
  is a Python dict `int -> Order`, modelled as an insertion-ordered
  association list; `available_tables` is a Python set of ints, modelled as
  `Finset ℤ`.  Each console message printed by an operation is modelled as a
  `Signal` value.
-/

namespace RestaurantModel

/-- JSON values as produced by Python's `json.load`: null, booleans, numbers
(ints and floats collapsed into `ℚ`), strings, arrays and objects
(objects keep field order, as Python dicts do). -/
inductive JVal where
  | jnull
  | jbool (b : Bool)
  | jnum (q : ℚ)
  | jstr (s : String)
  | jarr (xs : List JVal)
  | jobj (fields : List (String × JVal))

/-- Python `v == s` for a `str` operand `s`: true exactly when `v` is the
equal string (a non-string JSON value never compares equal to a `str`). -/
def JVal.eqStr (v : JVal) (s : String) : Bool :=
  match v with
  | .jstr t => t == s
  | _ => false

/-- `MenuItem` from `main.py` lines 5-11: a record of `name`, `price`,
`category`.  Python never type-checks these fields (they are whatever the
JSON held), hence `JVal` fields. -/
structure MenuItem where
  name : JVal
  price : JVal
  category : JVal

/-- `Menu` (lines 17-21): holds the ordered list of items. -/
structure Menu where
  items : List MenuItem

/-- `Menu.get_items_by_category` (lines 45-47): all items of the category,
in catalog order.  The argument comes from console input, hence a string. -/
def Menu.get_items_by_category (m : Menu) (category : String) : List MenuItem :=
  m.items.filter (fun item => item.category.eqStr category)

/-- `Menu.get_item_by_name` (lines 49-54): first item with the exact name,
else `None`. -/
def Menu.get_item_by_name (m : Menu) (name : String) : Option MenuItem :=
  m.items.find? (fun item => item.name.eqStr name)

/-- `Order` (lines 67-73): table number, customer name, ordered line items.
The customer name is a `str` when typed at the console but an arbitrary JSON
value when restored from file, hence `JVal`. -/
structure Order where
  table_number : Int
  customer_name : JVal
  items : List MenuItem

/-- `Order.add_item` (lines 75-77): append one line. -/
def Order.add_item (o : Order) (item : MenuItem) : Order :=
  { o with items := o.items ++ [item] }

/-- `Order.remove_item` (lines 79-81): keep exactly the lines whose name
differs from the argument (removes every matching line). -/
def Order.remove_item (o : Order) (item_name : String) : Order :=
  { o with items := o.items.filter (fun item => ! item.name.eqStr item_name) }

/-- `Order.clear_order` (lines 97-99). -/
def Order.clear_order (o : Order) : Order :=
  { o with items := [] }

/-- The record `Order.to_dict` (lines 101-107) writes: table number, customer
name, and the item field triples.  Also the shape `load_orders` reads back. -/
structure OrderRec where
  table_number : Int
  customer_name : JVal
  items : List MenuItem

/-- `Order.to_dict` (lines 101-107): the persisted record of an order.  The
per-item `{name, price, category}` dicts are represented by the items
themselves, which consist of exactly those three fields. -/
def Order.to_dict (o : Order) : OrderRec :=
  ⟨o.table_number, o.customer_name, o.items⟩

/-! Association-list model of the insertion-ordered Python dict
`self.orders : Dict[int, Order]`. -/

/-- Keys of the dict, in insertion order. -/
def alKeys (l : List (Int × Order)) : List Int :=
  l.map Prod.fst

/-- `self.orders[t]` read access (keys are unique in every reachable dict,
so first-match lookup is the dict lookup). -/
def alLookup (l : List (Int × Order)) (t : Int) : Option Order :=
  (l.find? (fun p => decide (p.1 = t))).map Prod.snd

/-- `self.orders[t] = o`: replace in place when the key exists (dict keeps
the original position), otherwise append (dicts append new keys). -/
def alInsert (l : List (Int × Order)) (t : Int) (o : Order) : List (Int × Order) :=
  if t ∈ alKeys l then
    l.map (fun p => if p.1 = t then (p.1, o) else p)
  else
    l ++ [(t, o)]

/-- In-place mutation `self.orders[t].method(...)`: the stored order is
updated, keys and positions unchanged. -/
def alUpdate (l : List (Int × Order)) (t : Int) (f : Order → Order) : List (Int × Order) :=
  l.map (fun p => if p.1 = t then (p.1, f p.2) else p)

/-- `del self.orders[t]`: drop the entry with key `t` (keys are unique, so
the filter drops exactly that entry). -/
def alErase (l : List (Int × Order)) (t : Int) : List (Int × Order) :=
  l.filter (fun p => decide (¬ p.1 = t))

/-- The console messages the modelled operations print, one constructor per
distinct message of `main.py`. -/
inductive Signal where
  /-- Order created — `create_order` returned `True`. -/
  | created
  /-- Table does not exist — `create_order` returned `False` (line 128). -/
  | noSuchTable
  /-- Table already occupied — `create_order` returned `False` (line 132). -/
  | tableOccupied
  /-- No order found for the table (lines 143, 156, 172). -/
  | noSuchOrder
  /-- Item added to the order (line 149). -/
  | itemAdded
  /-- Item not found in the menu (line 151). -/
  | itemNotFound
  /-- Item removed from the order (line 160). -/
  | itemRemoved
  /-- Order cancelled (line 177). -/
  | orderCanceled
  deriving DecidableEq, Repr

/-- `Restaurant` state (lines 110-116): menu, active orders dict,
available-tables set. -/
structure Restaurant where
  menu : Menu
  orders : List (Int × Order)
  available_tables : Finset ℤ

/-- The hard-coded table universe `{1, 2, 3, 4, 5}` of `__init__` (line 116). -/
def initialTables : Finset ℤ := {1, 2, 3, 4, 5}

/-- `Restaurant.__init__` (lines 113-116): empty menu, no orders, all five
tables available. -/
def Restaurant.init : Restaurant :=
  ⟨⟨[]⟩, [], initialTables⟩

/-- `Restaurant.create_order` (lines 122-138).  Checks availability first,
then occupancy, then inserts the fresh order and removes the table from the
available set. -/
def Restaurant.create_order (r : Restaurant) (table_number : Int) (customer_name : String) :
    Restaurant × Signal :=
  if table_number ∉ r.available_tables then
    (r, Signal.noSuchTable)
  else if table_number ∈ alKeys r.orders then
    (r, Signal.tableOccupied)
  else
    ({ r with
        orders := alInsert r.orders table_number ⟨table_number, JVal.jstr customer_name, []⟩,
        available_tables := r.available_tables.erase table_number },
     Signal.created)

/-- `Restaurant.add_to_order` (lines 140-151): no-op when the table has no
order; otherwise resolve the name in the menu, appending the found item or
reporting it missing. -/
def Restaurant.add_to_order (r : Restaurant) (table_number : Int) (item_name : String) :
    Restaurant × Signal :=
  if table_number ∈ alKeys r.orders then
    match r.menu.get_item_by_name item_name with
    | some item =>
        ({ r with orders := alUpdate r.orders table_number (fun o => o.add_item item) },
         Signal.itemAdded)
    | none => (r, Signal.itemNotFound)
  else
    (r, Signal.noSuchOrder)

/-- `Restaurant.remove_from_order` (lines 153-160): no-op when the table has
no order; otherwise filter out the matching lines and report removal
unconditionally. -/
def Restaurant.remove_from_order (r : Restaurant) (table_number : Int) (item_name : String) :
    Restaurant × Signal :=
  if table_number ∈ alKeys r.orders then
    ({ r with orders := alUpdate r.orders table_number (fun o => o.remove_item item_name) },
     Signal.itemRemoved)
  else
    (r, Signal.noSuchOrder)

/-- `Restaurant.cancel_order` (lines 169-177): no-op when the table has no
order; otherwise clear the order (unobservable, the entry is deleted right
after), delete the dict entry and put the table back into the available
set. -/
def Restaurant.cancel_order (r : Restaurant) (table_number : Int) : Restaurant × Signal :=
  if table_number ∈ alKeys r.orders then
    ({ r with
        orders := alErase r.orders table_number,
        available_tables := insert table_number r.available_tables },
     Signal.orderCanceled)
  else
    (r, Signal.noSuchOrder)

/-- `Restaurant.save_orders` (lines 183-188): the JSON array written to the
destination — one `to_dict` record per active order, in dict order. -/
def Restaurant.save_orders (r : Restaurant) : List OrderRec :=
  r.orders.map (fun p => p.2.to_dict)

/-- One iteration of the `load_orders` loop body (lines 195-203): rebuild the
order from the record (`add_item` per line reproduces the item list in file
order), store it under its table number, and `discard` the table from the
available set. -/
def applyOrderRec (r : Restaurant) (x : OrderRec) : Restaurant :=
  { r with
      orders := alInsert r.orders x.table_number ⟨x.table_number, x.customer_name, x.items⟩,
      available_tables := r.available_tables.erase x.table_number }

/-- The whole `load_orders` loop (lines 195-203) applied to the decoded
records of a successfully parsed orders file. -/
def Restaurant.restoreRecords (r : Restaurant) (recs : List OrderRec) : Restaurant :=
  recs.foldl applyOrderRec r

/-! The file-reading layer of `load_menu` (lines 23-36) and `load_orders`
(lines 190-208).  Reading the source either raises `FileNotFoundError`,
raises `json.JSONDecodeError`, or yields a parsed JSON value; the code
catches exactly those two exceptions.  Exceptions raised while picking the
parsed value apart (`KeyError` on a missing dict key, `TypeError` on
subscripting or iterating a wrong-shaped value) have no handler and escape
to the caller. -/

/-- Python exceptions the modelled code can raise past its handlers.
`unmodeled` marks the one corner this embedding does not represent: a
`table_number` entry that is not a JSON integer (Python would accept any
hashable value as a dict key there; no claim depends on it). -/
inductive PyErr where
  | keyError
  | typeError
  | valueError
  | unmodeled
  deriving DecidableEq, Repr

/-- The three outcomes of opening and `json.load`-ing a file: the file is
missing (`FileNotFoundError`), its text is not valid JSON
(`json.JSONDecodeError`), or parsing yields a JSON value. -/
inductive ReadFile where
  | fileNotFound
  | jsonDecodeError
  | content (j : JVal)

/-- Python subscript `j[key]` for a string key: a field of an object
(`KeyError` when absent), `TypeError` on any other value. -/
def objGet (j : JVal) (key : String) : Except PyErr JVal :=
  match j with
  | .jobj fields =>
      match fields.find? (fun p => p.1 == key) with
      | some p => .ok p.2
      | none => .error .keyError
  | _ => .error .typeError

/-- Python iteration over a parsed JSON value: arrays yield their elements,
dicts their keys, strings their characters; numbers, booleans and `None`
raise `TypeError`. -/
def asIterable (j : JVal) : Except PyErr (List JVal) :=
  match j with
  | .jarr xs => .ok xs
  | .jobj fields => .ok (fields.map (fun p => .jstr p.1))
  | .jstr s => .ok (s.toList.map (fun c => .jstr c.toString))
  | _ => .error .typeError

/-- `MenuItem(item["name"], item["price"], item["category"])` on a parsed
value (lines 29, 200): the three subscripts in order, each able to raise. -/
def decodeMenuItem (j : JVal) : Except PyErr MenuItem := do
  let n ← objGet j "name"
  let p ← objGet j "price"
  let c ← objGet j "category"
  pure ⟨n, p, c⟩

/-- `Menu.load_menu` (lines 23-36).  A missing file or a JSON parse error is
caught: a message is printed and `self.items` is left as it was.  On parsed
content the item list is built by a list comprehension and assigned to
`self.items` only once fully built, so a `KeyError`/`TypeError` raised
mid-comprehension escapes with the menu unchanged. -/
def Menu.load_menu (m : Menu) (f : ReadFile) : Except PyErr Menu :=
  match f with
  | .fileNotFound => .ok m
  | .jsonDecodeError => .ok m
  | .content j => do
      let xs ← asIterable j
      let items ← xs.mapM decodeMenuItem
      pure ⟨items⟩

/-- The JSON integer required where a record's `"table_number"` is used as a
dict key over `Int`.  Python would accept any hashable value; a non-integer
is outside this embedding and marked `unmodeled` (no claim exercises it). -/
def asTableNumber (j : JVal) : Except PyErr Int :=
  match j with
  | .jnum q => if q.den = 1 then .ok q.num else .error .unmodeled
  | _ => .error .unmodeled

/-- Decoding one order record inside the `load_orders` loop (lines 196-201):
subscripts and iteration in program order, each able to raise. -/
def decodeOrderRec (j : JVal) : Except PyErr OrderRec := do
  let t ← objGet j "table_number"
  let tn ← asTableNumber t
  let c ← objGet j "customer_name"
  let itemsJ ← objGet j "items"
  let itemXs ← asIterable itemsJ
  let items ← itemXs.mapM decodeMenuItem
  pure ⟨tn, c, items⟩

/-- The `load_orders` loop over the parsed array elements: each record is
decoded and applied in turn; a decoding exception aborts the loop and
escapes (earlier records have already been applied to the mutable state,
which the escaping exception discards from the caller's view). -/
def loadOrdersLoop (r : Restaurant) (xs : List JVal) : Except PyErr Restaurant :=
  match xs with
  | [] => .ok r
  | x :: rest =>
      match decodeOrderRec x with
      | .error e => .error e
      | .ok rec1 => loadOrdersLoop (applyOrderRec r rec1) rest

/-- `Restaurant.load_orders` (lines 190-208).  A missing file or a JSON
parse error is caught: a message is printed and the state is left as it
was.  Any other exception while picking the parsed value apart escapes. -/
def Restaurant.load_orders (r : Restaurant) (f : ReadFile) : Except PyErr Restaurant :=
  match f with
  | .fileNotFound => .ok r
  | .jsonDecodeError => .ok r
  | .content j =>
      match asIterable j with
      | .error e => .error e
      | .ok xs => loadOrdersLoop r xs

/-! The two table-number prompts of the top-level loop in `main`
(lines 313-320) and the wizard's table prompt (lines 248-253). -/

/-- Value of an ASCII digit run. -/
def digitsVal (cs : List Char) : Nat :=
  cs.foldl (fun n c => 10 * n + (c.toNat - 48)) 0

/-- Python `int(s)` on console input: surrounding whitespace is ignored, an
optional sign precedes a non-empty digit run; anything else raises
`ValueError` (modelled as `none`).  Exotic accepted forms (digit-group
underscores, non-ASCII digits) are not modelled; no claim uses them. -/
def pyInt (s : String) : Option Int :=
  let cs := ((s.toList.dropWhile Char.isWhitespace).reverse.dropWhile Char.isWhitespace).reverse
  match cs with
  | '-' :: ds =>
      if !ds.isEmpty && ds.all Char.isDigit then some (-(digitsVal ds : Int)) else none
  | '+' :: ds =>
      if !ds.isEmpty && ds.all Char.isDigit then some ((digitsVal ds : Int)) else none
  | ds =>
      if !ds.isEmpty && ds.all Char.isDigit then some ((digitsVal ds : Int)) else none

/-- One iteration of the `main` command loop (lines 295-331) for the two
choices that read a table number from the console.  Choice "3" parses the
input with a bare `int(...)` and shows the order (no mutation); choice "4"
parses with a bare `int(...)`, cancels and saves.  Neither `int(...)` call
sits in a `try` block, so a non-numeric input raises `ValueError` out of
`main`.  (Choice "1" delegates to `order_creation_wizard`, whose own
`int(...)` at lines 249-253 is wrapped in `try/except ValueError`.) -/
def mainStep (r : Restaurant) (choice : String) (table_input : String) :
    Except PyErr Restaurant :=
  if choice = "3" then
    match pyInt table_input with
    | none => .error .valueError
    | some _ => .ok r
  else if choice = "4" then
    match pyInt table_input with
    | none => .error .valueError
    | some t => .ok (r.cancel_order t).1
  else
    .ok r

/-- The table prompt of `order_creation_wizard` (lines 248-253): here the
`int(...)` call IS wrapped in `try/except ValueError`, so a non-numeric
input is reported and the wizard returns without touching the state
(`none`), never raising. -/
def wizardTableInput (table_input : String) : Except PyErr (Option Int) :=
  Except.ok (pyInt table_input)

/-! Reachability and invariants. -/

/-- The keys of the active-orders dict as a finite set. -/
def keyset (r : Restaurant) : Finset ℤ :=
  (r.orders.map Prod.fst).toFinset

/-- The records mention only tables of the fixed universe — the shape of
every orders file that `save_orders` itself writes from a valid state. -/
def recsInUniverse (recs : List OrderRec) : Prop :=
  ∀ x ∈ recs, x.table_number ∈ initialTables

/-- States reachable from `Restaurant.__init__` through the public
operations.  `P` constrains the decoded content of the orders files passed
to successful `load_orders` calls; `fun _ => True` allows arbitrary files.
A successful `load_menu` replaces the menu and touches nothing else; failed
loads leave the state unchanged, so they add no states. -/
inductive Reachable (P : List OrderRec → Prop) : Restaurant → Prop where
  | init : Reachable P Restaurant.init
  | loadMenu (r : Restaurant) (items : List MenuItem) :
      Reachable P r → Reachable P { r with menu := ⟨items⟩ }
  | create (r : Restaurant) (t : Int) (c : String) :
      Reachable P r → Reachable P (r.create_order t c).1
  | add (r : Restaurant) (t : Int) (n : String) :
      Reachable P r → Reachable P (r.add_to_order t n).1
  | remove (r : Restaurant) (t : Int) (n : String) :
      Reachable P r → Reachable P (r.remove_from_order t n).1
  | cancel (r : Restaurant) (t : Int) :
      Reachable P r → Reachable P (r.cancel_order t).1
  | restore (r : Restaurant) (recs : List OrderRec) :
      P recs → Reachable P r → Reachable P (r.restoreRecords recs)

/-- Structural well-formedness maintained by every operation regardless of
file contents: dict keys are distinct, every stored order carries its own
key as `table_number`, and no table is simultaneously a dict key and an
available table. -/
def WF (r : Restaurant) : Prop :=
  (alKeys r.orders).Nodup ∧
  (∀ p ∈ r.orders, p.2.table_number = p.1) ∧
  (∀ t : ℤ, t ∈ alKeys r.orders → t ∉ r.available_tables)

/-- The table-universe property, pointwise: each integer is occupied or
available exactly when it is one of the five configured tables. -/
def UnivPt (r : Restaurant) : Prop :=
  ∀ s : ℤ, (s ∈ alKeys r.orders ∨ s ∈ r.available_tables) ↔ s ∈ initialTables

/-- The data-model invariant of the specification: the occupied keys and the
available tables are disjoint and together are exactly the fixed universe
(which also rules out any table number outside the universe appearing in
either structure). -/
def InvC1 (r : Restaurant) : Prop :=
  keyset r ∩ r.available_tables = ∅ ∧ keyset r ∪ r.available_tables = initialTables

/-- The reconstructed entry `load_orders` builds from one record. -/
def recEntry (x : OrderRec) : Int × Order :=
  (x.table_number, ⟨x.table_number, x.customer_name, x.items⟩)

/-! Concrete data used by witnesses. -/

/-- A sample drink, as loaded from a well-formed menu file. -/
def teaItem : MenuItem :=
  ⟨JVal.jstr "Tea", JVal.jnum 2, JVal.jstr "Drinks"⟩

/-- A second sample drink. -/
def colaItem : MenuItem :=
  ⟨JVal.jstr "Cola", JVal.jnum 3, JVal.jstr "Drinks"⟩

/-- A sample menu holding the two drinks. -/
def demoMenu : Menu :=
  ⟨[teaItem, colaItem]⟩

/-- A fresh restaurant whose menu was loaded successfully. -/
def menuState : Restaurant :=
  { Restaurant.init with menu := demoMenu }

/-- The state after `create_order(1, "Alice")` on `menuState`. -/
def demoCreated : Restaurant :=
  (menuState.create_order 1 "Alice").1

/-- The state after also adding one "Tea" line to table 1's order. -/
def demoState : Restaurant :=
  (demoCreated.add_to_order 1 "Tea").1

/-- A sample order holding two "Cola" lines around a "Tea" line. -/
def demoOrder : Order :=
  ⟨1, JVal.jstr "Alice", [colaItem, teaItem, colaItem]⟩

/-! Theorems: general lemmas first, then one theorem (with its witness or
counterexample) per specification claim. -/

@[simp]
theorem JVal.eqStr_iff (v : JVal) (s : String) : v.eqStr s = true ↔ v = JVal.jstr s := by
  cases v <;> simp [JVal.eqStr]

theorem mem_alKeys {l : List (Int × Order)} {t : Int} :
    t ∈ alKeys l ↔ ∃ p ∈ l, p.1 = t := by
  simp [alKeys]

theorem alKeys_alUpdate (l : List (Int × Order)) (t : Int) (f : Order → Order) :
    alKeys (alUpdate l t f) = alKeys l := by
  simp only [alKeys, alUpdate, List.map_map]
  apply List.map_congr_left
  intro p _
  by_cases h : p.1 = t <;> simp [h]

theorem alKeys_alInsert_mem {l : List (Int × Order)} {t : Int} (o : Order)
    (h : t ∈ alKeys l) : alKeys (alInsert l t o) = alKeys l := by
  have he : alInsert l t o = l.map (fun p => if p.1 = t then (p.1, o) else p) := by
    unfold alInsert
    rw [if_pos h]
  rw [he]
  simp only [alKeys, List.map_map]
  apply List.map_congr_left
  intro p _
  by_cases hp : p.1 = t <;> simp [hp]

theorem alKeys_alInsert_not_mem {l : List (Int × Order)} {t : Int} (o : Order)
    (h : t ∉ alKeys l) : alKeys (alInsert l t o) = alKeys l ++ [t] := by
  have he : alInsert l t o = l ++ [(t, o)] := by
    unfold alInsert
    rw [if_neg h]
  rw [he]
  simp [alKeys]

theorem mem_alKeys_alInsert {l : List (Int × Order)} {s t : Int} (o : Order) :
    s ∈ alKeys (alInsert l t o) ↔ s ∈ alKeys l ∨ s = t := by
  by_cases h : t ∈ alKeys l
  · rw [alKeys_alInsert_mem o h]
    constructor
    · exact Or.inl
    · rintro (hs | rfl)
      · exact hs
      · exact h
  · rw [alKeys_alInsert_not_mem o h]
    simp

theorem alErase_sublist (l : List (Int × Order)) (t : Int) :
    (alErase l t).Sublist l :=
  List.filter_sublist l

theorem mem_alKeys_alErase {l : List (Int × Order)} {s t : Int} :
    s ∈ alKeys (alErase l t) ↔ s ∈ alKeys l ∧ s ≠ t := by
  simp only [alErase, alKeys, List.mem_map, List.mem_filter]
  constructor
  · rintro ⟨p, ⟨hp, hne⟩, rfl⟩
    simp only [decide_eq_true_eq] at hne
    exact ⟨⟨p, hp, rfl⟩, hne⟩
  · rintro ⟨⟨p, hp, rfl⟩, hne⟩
    exact ⟨p, ⟨hp, by simpa using hne⟩, rfl⟩

theorem nodup_alKeys_alErase {l : List (Int × Order)} (t : Int)
    (h : (alKeys l).Nodup) : (alKeys (alErase l t)).Nodup :=
  (((alErase_sublist l t).map Prod.fst).nodup h)

theorem WF_alUpdate {r : Restaurant} {t : Int} {f : Order → Order} (hw : WF r)
    (hf : ∀ o : Order, (f o).table_number = o.table_number) :
    WF { r with orders := alUpdate r.orders t f } := by
  obtain ⟨hnd, hkc, hdis⟩ := hw
  refine ⟨by simpa [alKeys_alUpdate] using hnd, ?_, ?_⟩
  · intro p hp
    simp only [alUpdate, List.mem_map] at hp
    obtain ⟨q, hq, hqe⟩ := hp
    by_cases h : q.1 = t
    · simp only [if_pos h] at hqe
      rw [← hqe]
      simpa using hf q.2 ▸ hkc q hq
    · simp only [if_neg h] at hqe
      exact hqe ▸ hkc q hq
  · intro s hs
    rw [alKeys_alUpdate] at hs
    exact hdis s hs

theorem WF_applyOrderRec {r : Restaurant} (x : OrderRec) (hw : WF r) :
    WF (applyOrderRec r x) := by
  obtain ⟨hnd, hkc, hdis⟩ := hw
  refine ⟨?_, ?_, ?_⟩
  · by_cases h : x.table_number ∈ alKeys r.orders
    · simpa [applyOrderRec, alKeys_alInsert_mem _ h] using hnd
    · simp only [applyOrderRec]
      rw [alKeys_alInsert_not_mem _ h]
      simpa [List.nodup_append] using ⟨hnd, h⟩
  · intro p hp
    simp only [applyOrderRec, alInsert] at hp
    split at hp
    · simp only [List.mem_map] at hp
      obtain ⟨q, hq, hqe⟩ := hp
      by_cases h : q.1 = x.table_number
      · simp only [if_pos h] at hqe
        rw [← hqe, h]
      · simp only [if_neg h] at hqe
        exact hqe ▸ hkc q hq
    · rcases List.mem_append.mp hp with hq | hq
      · exact hkc p hq
      · simp only [List.mem_singleton] at hq
        rw [hq]
  · intro s hs
    simp only [applyOrderRec] at hs ⊢
    rw [mem_alKeys_alInsert] at hs
    rcases hs with hs | rfl
    · exact fun hmem => hdis s hs (Finset.mem_of_mem_erase hmem)
    · exact Finset.not_mem_erase _ _

theorem WF_restoreRecords {r : Restaurant} (recs : List OrderRec) (hw : WF r) :
    WF (r.restoreRecords recs) := by
  induction recs generalizing r with
  | nil => exact hw
  | cons x xs ih => exact ih (WF_applyOrderRec x hw)

/-- Every reachable state is structurally well-formed, whatever files were
fed to `load_orders`. -/
theorem reachable_WF {P : List OrderRec → Prop} {r : Restaurant}
    (h : Reachable P r) : WF r := by
  induction h with
  | init => exact ⟨List.nodup_nil, by simp [Restaurant.init], by simp [Restaurant.init, alKeys]⟩
  | loadMenu r items _ ih => exact ih
  | create r t c _ ih =>
      by_cases h1 : t ∈ r.available_tables
      · by_cases h2 : t ∈ alKeys r.orders
        · simpa [Restaurant.create_order, h1, h2] using ih
        · have he : (r.create_order t c).1 =
              { r with
                  orders := alInsert r.orders t ⟨t, JVal.jstr c, []⟩,
                  available_tables := r.available_tables.erase t } := by
            simp [Restaurant.create_order, h1, h2]
          rw [he]
          obtain ⟨hnd, hkc, hdis⟩ := ih
          refine ⟨?_, ?_, ?_⟩
          · rw [alKeys_alInsert_not_mem _ h2]
            simpa [List.nodup_append] using ⟨hnd, h2⟩
          · intro p hp
            simp only [alInsert, if_neg h2] at hp
            rcases List.mem_append.mp hp with hq | hq
            · exact hkc p hq
            · simp only [List.mem_singleton] at hq
              rw [hq]
          · intro s hs
            rw [mem_alKeys_alInsert] at hs
            rcases hs with hs | rfl
            · exact fun hmem => hdis s hs (Finset.mem_of_mem_erase hmem)
            · exact Finset.not_mem_erase _ _
      · simpa [Restaurant.create_order, h1] using ih
  | add r t n _ ih =>
      by_cases h1 : t ∈ alKeys r.orders
      · cases hi : r.menu.get_item_by_name n with
        | some item =>
            have he : (r.add_to_order t n).1 =
                { r with orders := alUpdate r.orders t (fun o => o.add_item item) } := by
              simp [Restaurant.add_to_order, h1, hi]
            rw [he]
            exact WF_alUpdate ih (fun o => rfl)
        | none => simpa [Restaurant.add_to_order, h1, hi] using ih
      · simpa [Restaurant.add_to_order, h1] using ih
  | remove r t n _ ih =>
      by_cases h1 : t ∈ alKeys r.orders
      · have he : (r.remove_from_order t n).1 =
            { r with orders := alUpdate r.orders t (fun o => o.remove_item n) } := by
          simp [Restaurant.remove_from_order, h1]
        rw [he]
        exact WF_alUpdate ih (fun o => rfl)
      · simpa [Restaurant.remove_from_order, h1] using ih
  | cancel r t _ ih =>
      by_cases h1 : t ∈ alKeys r.orders
      · have he : (r.cancel_order t).1 =
            { r with
                orders := alErase r.orders t,
                available_tables := insert t r.available_tables } := by
          simp [Restaurant.cancel_order, h1]
        rw [he]
        obtain ⟨hnd, hkc, hdis⟩ := ih
        refine ⟨nodup_alKeys_alErase t hnd, ?_, ?_⟩
        · intro p hp
          exact hkc p ((alErase_sublist r.orders t).mem hp)
        · intro s hs
          rw [mem_alKeys_alErase] at hs
          obtain ⟨hs, hne⟩ := hs
          intro hmem
          rcases Finset.mem_insert.mp hmem with rfl | hmem
          · exact hne rfl
          · exact hdis s hs hmem
      · simpa [Restaurant.cancel_order, h1] using ih
  | restore r recs _ _ ih => exact WF_restoreRecords recs ih

theorem univPt_applyOrderRec {r : Restaurant} {x : OrderRec}
    (hx : x.table_number ∈ initialTables) (ih : UnivPt r) :
    UnivPt (applyOrderRec r x) := by
  intro s
  simp only [applyOrderRec, mem_alKeys_alInsert, Finset.mem_erase]
  by_cases hst : s = x.table_number
  · subst hst
    simp [hx]
  · simpa [hst] using ih s

theorem univPt_restoreRecords {r : Restaurant} {recs : List OrderRec}
    (hrecs : recsInUniverse recs) (ih : UnivPt r) :
    UnivPt (r.restoreRecords recs) := by
  induction recs generalizing r with
  | nil => exact ih
  | cons x xs ihx =>
      exact ihx (fun y hy => hrecs y (List.mem_cons_of_mem x hy))
        (univPt_applyOrderRec (hrecs x (List.mem_cons_self x xs)) ih)

/-- Every state reachable with `load_orders` inputs confined to the
configured universe covers the universe exactly. -/
theorem reachable_univPt {r : Restaurant} (h : Reachable recsInUniverse r) :
    UnivPt r := by
  induction h with
  | init => intro s; simp [Restaurant.init, alKeys]
  | loadMenu r items _ ih => exact ih
  | create r t c _ ih =>
      by_cases h1 : t ∈ r.available_tables
      · by_cases h2 : t ∈ alKeys r.orders
        · simpa [Restaurant.create_order, h1, h2] using ih
        · have he : (r.create_order t c).1 =
              { r with
                  orders := alInsert r.orders t ⟨t, JVal.jstr c, []⟩,
                  available_tables := r.available_tables.erase t } := by
            simp [Restaurant.create_order, h1, h2]
          rw [he]
          intro s
          simp only [mem_alKeys_alInsert, Finset.mem_erase]
          by_cases hst : s = t
          · subst hst
            simp [(ih s).mp (Or.inr h1)]
          · simpa [hst] using ih s
      · simpa [Restaurant.create_order, h1] using ih
  | add r t n _ ih =>
      intro s
      by_cases h1 : t ∈ alKeys r.orders
      · cases hi : r.menu.get_item_by_name n with
        | some item =>
            simpa [Restaurant.add_to_order, h1, hi, alKeys_alUpdate] using ih s
        | none => simpa [Restaurant.add_to_order, h1, hi] using ih s
      · simpa [Restaurant.add_to_order, h1] using ih s
  | remove r t n _ ih =>
      intro s
      by_cases h1 : t ∈ alKeys r.orders
      · simpa [Restaurant.remove_from_order, h1, alKeys_alUpdate] using ih s
      · simpa [Restaurant.remove_from_order, h1] using ih s
  | cancel r t _ ih =>
      by_cases h1 : t ∈ alKeys r.orders
      · have he : (r.cancel_order t).1 =
            { r with
                orders := alErase r.orders t,
                available_tables := insert t r.available_tables } := by
          simp [Restaurant.cancel_order, h1]
        rw [he]
        intro s
        simp only [mem_alKeys_alErase, Finset.mem_insert]
        by_cases hst : s = t
        · subst hst
          simp [(ih s).mp (Or.inl h1)]
        · simpa [hst] using ih s
      · simpa [Restaurant.cancel_order, h1] using ih
  | restore r recs hP _ ih => exact univPt_restoreRecords hP ih

theorem mem_keyset {r : Restaurant} {s : ℤ} : s ∈ keyset r ↔ s ∈ alKeys r.orders := by
  simp [keyset, alKeys]

theorem invC1_of_WF_univPt {r : Restaurant} (hw : WF r) (hu : UnivPt r) : InvC1 r := by
  constructor
  · ext s
    simp only [Finset.mem_inter, Finset.not_mem_empty, iff_false, mem_keyset]
    rintro ⟨hk, ha⟩
    exact hw.2.2 s hk ha
  · ext s
    simp only [Finset.mem_union, mem_keyset]
    exact hu s

/-! Persist / restore round trip. -/

theorem restore_fold_fresh (s : Restaurant) (recs : List OrderRec)
    (hdis : ∀ x ∈ recs, x.table_number ∉ alKeys s.orders)
    (hnd : (recs.map OrderRec.table_number).Nodup) :
    (s.restoreRecords recs).orders = s.orders ++ recs.map recEntry ∧
    (s.restoreRecords recs).available_tables
        = s.available_tables \ (recs.map OrderRec.table_number).toFinset := by
  induction recs generalizing s with
  | nil => simp [Restaurant.restoreRecords]
  | cons x xs ih =>
      have hx : x.table_number ∉ alKeys s.orders := hdis x (List.mem_cons_self x xs)
      have happ : applyOrderRec s x =
          { s with
              orders := s.orders ++ [recEntry x],
              available_tables := s.available_tables.erase x.table_number } := by
        unfold applyOrderRec alInsert recEntry
        rw [if_neg hx]
      have hstep : s.restoreRecords (x :: xs) = (applyOrderRec s x).restoreRecords xs := rfl
      have hnd' := hnd
      rw [List.map_cons, List.nodup_cons] at hnd'
      have hxs : x.table_number ∉ xs.map OrderRec.table_number := hnd'.1
      obtain ⟨h1, h2⟩ := ih (s := applyOrderRec s x)
        (by
          intro y hy
          rw [happ]
          simp only [alKeys, List.map_append]
          intro hmem
          rcases List.mem_append.mp hmem with hm | hm
          · exact hdis y (List.mem_cons_of_mem x hy) hm
          · simp only [recEntry, List.map_cons, List.map_nil, List.mem_singleton] at hm
            exact hxs (hm ▸ List.mem_map_of_mem OrderRec.table_number hy))
        hnd'.2
      rw [hstep]
      constructor
      · rw [h1, happ]
        simp
      · rw [h2, happ]
        ext z
        simp only [Finset.mem_sdiff, Finset.mem_erase, List.map_cons, List.mem_toFinset,
          List.mem_cons]
        constructor
        · rintro ⟨⟨hne, hz⟩, hnm⟩
          exact ⟨hz, fun hc => by rcases hc with hc | hc; exact hne hc; exact hnm hc⟩
        · rintro ⟨hz, hnm⟩
          exact ⟨⟨fun hc => hnm (Or.inl hc), hz⟩, fun hc => hnm (Or.inr hc)⟩

/-- Persisting a well-formed state and restoring into a fresh `Restaurant`
rebuilds the same orders dict and the complementary available set. -/
theorem roundtrip_of_WF {r : Restaurant} (hw : WF r) :
    (Restaurant.init.restoreRecords r.save_orders).orders = r.orders ∧
    (Restaurant.init.restoreRecords r.save_orders).available_tables
        = initialTables \ keyset r := by
  obtain ⟨hnd, hkc, _⟩ := hw
  have htab : r.save_orders.map OrderRec.table_number = alKeys r.orders := by
    simp only [Restaurant.save_orders, alKeys, List.map_map]
    apply List.map_congr_left
    intro p hp
    exact hkc p hp
  obtain ⟨h1, h2⟩ := restore_fold_fresh Restaurant.init r.save_orders
    (by simp [Restaurant.init, alKeys]) (htab ▸ hnd)
  constructor
  · rw [h1]
    have : r.save_orders.map recEntry = r.orders := by
      simp only [Restaurant.save_orders, List.map_map]
      have he : ∀ p ∈ r.orders, (recEntry ∘ fun p : Int × Order => p.2.to_dict) p = id p := by
        intro p hp
        have hk := hkc p hp
        cases p with
        | mk a b =>
            cases b with
            | mk tb cn it =>
                simp only [Order.to_dict, recEntry, Function.comp_apply, id_eq] at hk ⊢
                subst hk
                rfl
      rw [List.map_congr_left he, List.map_id]
    rw [this]
    simp [Restaurant.init]
  · rw [h2, htab]
    simp [Restaurant.init, keyset, alKeys]

/-! Lookup lemmas for the dict model. -/

theorem alLookup_cons (q : Int × Order) (l : List (Int × Order)) (t : Int) :
    alLookup (q :: l) t = if q.1 = t then some q.2 else alLookup l t := by
  by_cases h : q.1 = t
  · unfold alLookup
    rw [List.find?_cons_of_pos _ (by simpa using h)]
    simp [h]
  · unfold alLookup
    rw [List.find?_cons_of_neg _ (by simpa using h)]
    simp [h]

theorem alUpdate_cons (q : Int × Order) (l : List (Int × Order)) (t : Int) (f : Order → Order) :
    alUpdate (q :: l) t f = (if q.1 = t then (q.1, f q.2) else q) :: alUpdate l t f := by
  simp [alUpdate]

theorem alLookup_alUpdate_self (l : List (Int × Order)) (t : Int) (f : Order → Order) :
    alLookup (alUpdate l t f) t = (alLookup l t).map f := by
  induction l with
  | nil => rfl
  | cons q qs ih =>
      rw [alUpdate_cons]
      by_cases h : q.1 = t
      · rw [if_pos h, alLookup_cons, alLookup_cons]
        simp [h]
      · rw [if_neg h, alLookup_cons, alLookup_cons, if_neg h, if_neg h]
        exact ih

theorem alLookup_alUpdate_ne (l : List (Int × Order)) {s t : Int} (f : Order → Order)
    (hst : s ≠ t) : alLookup (alUpdate l t f) s = alLookup l s := by
  induction l with
  | nil => rfl
  | cons q qs ih =>
      rw [alUpdate_cons]
      by_cases h : q.1 = t
      · have hqs : ¬ q.1 = s := fun he => hst ((he ▸ h).symm ▸ rfl)
        rw [if_pos h, alLookup_cons, alLookup_cons]
        simp only [hqs, if_false]
        simpa [hqs] using ih
      · rw [if_neg h, alLookup_cons, alLookup_cons]
        by_cases hq : q.1 = s
        · simp [hq]
        · simp only [hq, if_false]
          exact ih

theorem alLookup_isSome_of_mem {l : List (Int × Order)} {t : Int} (h : t ∈ alKeys l) :
    ∃ o : Order, alLookup l t = some o := by
  induction l with
  | nil => simp [alKeys] at h
  | cons q qs ih =>
      rw [alLookup_cons]
      by_cases hq : q.1 = t
      · exact ⟨q.2, by rw [if_pos hq]⟩
      · have hm : t = q.1 ∨ t ∈ alKeys qs := List.mem_cons.mp h
        rcases hm with hc | hc
        · exact absurd hc.symm hq
        · obtain ⟨o, ho⟩ := ih hc
          exact ⟨o, by rw [if_neg hq]; exact ho⟩

theorem alErase_append_fresh (l : List (Int × Order)) (t : Int) (o : Order)
    (h : t ∉ alKeys l) : alErase (l ++ [(t, o)]) t = l := by
  unfold alErase
  rw [List.filter_append]
  have h1 : [(t, o)].filter (fun p : Int × Order => decide (¬ p.1 = t)) = [] := by
    simp
  have h2 : l.filter (fun p : Int × Order => decide (¬ p.1 = t)) = l :=
    List.filter_eq_self.mpr (fun p hp => by
      simp only [decide_eq_true_eq]
      exact fun he => h (mem_alKeys.mpr ⟨p, hp, he⟩))
  rw [h1, h2, List.append_nil]

theorem find?_first {p : MenuItem → Bool} {l : List MenuItem} {a : MenuItem}
    (h : l.find? p = some a) :
    p a = true ∧ ∃ l1 l2, l = l1 ++ a :: l2 ∧ ∀ x ∈ l1, p x = false := by
  induction l with
  | nil => simp at h
  | cons b bs ih =>
      by_cases hp : p b = true
      · rw [List.find?_cons_of_pos _ hp] at h
        cases h
        exact ⟨hp, [], bs, rfl, by simp⟩
      · rw [List.find?_cons_of_neg _ hp] at h
        obtain ⟨hpa, l1, l2, heq, hl1⟩ := ih h
        refine ⟨hpa, b :: l1, l2, by rw [heq]; rfl, ?_⟩
        intro x hx
        rcases List.mem_cons.mp hx with rfl | hx
        · simpa using hp
        · exact hl1 x hx

/-! Claim C1. -/

/-- C1 counterexample: the claim quantifies `restore` over arbitrary file
contents, and `load_orders` validates nothing — restoring a file whose one
record names table 7 makes 7 a key of `activeOrders` although it lies
outside the universe {1,2,3,4,5}, so the reached state violates the claimed
invariant. -/
theorem C1_counterexample :
    Reachable (fun _ => True) (Restaurant.init.restoreRecords [⟨7, JVal.jnull, []⟩]) ∧
    ¬ InvC1 (Restaurant.init.restoreRecords [⟨7, JVal.jnull, []⟩]) :=
  ⟨Reachable.restore _ _ trivial Reachable.init, by unfold InvC1; decide⟩

/-- C1 (amended): along every sequence of public operations in which each
`restore` is fed only records whose table numbers lie inside the universe
(as every file written by `save_orders` from a valid state is), the reached
states satisfy the invariant: the key set of `activeOrders` and
`availableTables` are disjoint, and their union is exactly {1,2,3,4,5}. -/
theorem C1_invariant {r : Restaurant} (h : Reachable recsInUniverse r) : InvC1 r :=
  invC1_of_WF_univPt (reachable_WF h) (reachable_univPt h)

/-- C1 witness: a concrete reachable state — a created order followed by a
well-formed restore — satisfying the invariant. -/
theorem C1_invariant_witness :
    Reachable recsInUniverse
        ((Restaurant.init.create_order 1 "Alice").1.restoreRecords [⟨2, JVal.jnull, []⟩]) ∧
    InvC1 ((Restaurant.init.create_order 1 "Alice").1.restoreRecords [⟨2, JVal.jnull, []⟩]) :=
  have hreach : Reachable recsInUniverse
      ((Restaurant.init.create_order 1 "Alice").1.restoreRecords [⟨2, JVal.jnull, []⟩]) :=
    Reachable.restore _ _
      (by
        intro x hx
        rw [List.mem_singleton] at hx
        subst hx
        decide)
      (Reachable.create _ 1 "Alice" Reachable.init)
  ⟨hreach, C1_invariant hreach⟩

/-! Claim C2. -/

/-- C2: persisting any reachable state's active orders and restoring the
output into a freshly constructed restaurant reproduces the orders dict
exactly — same tables, same customer names, same item sequences — and an
available set equal to the universe minus the occupied tables. -/
theorem C2_roundtrip {P : List OrderRec → Prop} {r : Restaurant} (h : Reachable P r) :
    (Restaurant.init.restoreRecords r.save_orders).orders = r.orders ∧
    (Restaurant.init.restoreRecords r.save_orders).available_tables
        = initialTables \ keyset r :=
  roundtrip_of_WF (reachable_WF h)

/-- C2 witness: the round trip at a state with one active order holding one
line. -/
theorem C2_roundtrip_witness :
    Reachable (fun _ => True) demoState ∧
    ((Restaurant.init.restoreRecords demoState.save_orders).orders = demoState.orders ∧
     (Restaurant.init.restoreRecords demoState.save_orders).available_tables
        = initialTables \ keyset demoState) :=
  have hreach : Reachable (fun _ => True) demoState :=
    Reachable.add _ 1 "Tea"
      (Reachable.create _ 1 "Alice" (Reachable.loadMenu _ demoMenu.items Reachable.init))
  ⟨hreach, C2_roundtrip hreach⟩

/-! Claim C3. -/

/-- C3: on every reachable state, `create_order` on an available table
followed immediately by `cancel_order` on the same table restores the
previous state exactly (orders dict, available set and menu all equal). -/
theorem C3_create_cancel {P : List OrderRec → Prop} (r : Restaurant) (t : Int) (c : String)
    (hr : Reachable P r) (ht : t ∈ r.available_tables) :
    ((r.create_order t c).1.cancel_order t).1 = r := by
  obtain ⟨hnd, hkc, hdis⟩ := reachable_WF hr
  have h2 : t ∉ alKeys r.orders := fun hk => hdis t hk ht
  have hins : alInsert r.orders t ⟨t, JVal.jstr c, []⟩
      = r.orders ++ [(t, ⟨t, JVal.jstr c, []⟩)] := by
    unfold alInsert
    rw [if_neg h2]
  have he1 : (r.create_order t c).1 =
      { r with
          orders := r.orders ++ [(t, ⟨t, JVal.jstr c, []⟩)],
          available_tables := r.available_tables.erase t } := by
    simp [Restaurant.create_order, ht, h2, hins]
  have hmem : t ∈ alKeys (r.orders ++ [(t, (⟨t, JVal.jstr c, []⟩ : Order))]) := by
    simp [alKeys]
  rw [he1]
  have he2 : (Restaurant.cancel_order
      { r with
          orders := r.orders ++ [(t, ⟨t, JVal.jstr c, []⟩)],
          available_tables := r.available_tables.erase t } t).1 =
      { r with
          orders := alErase (r.orders ++ [(t, ⟨t, JVal.jstr c, []⟩)]) t,
          available_tables := insert t (r.available_tables.erase t) } := by
    simp [Restaurant.cancel_order, hmem]
  rw [he2, alErase_append_fresh r.orders t _ h2, Finset.insert_erase ht]

/-- C3 witness: creating and cancelling table 1 on a fresh restaurant with a
loaded menu gives back exactly that state. -/
theorem C3_create_cancel_witness :
    Reachable (fun _ => True) menuState ∧ (1 : ℤ) ∈ menuState.available_tables ∧
    ((menuState.create_order 1 "Bob").1.cancel_order 1).1 = menuState :=
  have hreach : Reachable (fun _ => True) menuState :=
    Reachable.loadMenu _ demoMenu.items Reachable.init
  ⟨hreach, by decide, C3_create_cancel menuState 1 "Bob" hreach (by decide)⟩

/-! Claim C4. -/

/-- C4 counterexample: on the reachable state where table 1 is occupied,
`create_order(1, _)` fails with the "no such table" signal, not the claimed
"table occupied" signal — the availability check runs first and an occupied
table is never in `available_tables`, so the occupied branch is dead. -/
theorem C4_counterexample :
    Reachable recsInUniverse (Restaurant.init.create_order 1 "Alice").1 ∧
    (1 : ℤ) ∈ alKeys (Restaurant.init.create_order 1 "Alice").1.orders ∧
    ((Restaurant.init.create_order 1 "Alice").1.create_order 1 "Bob").2 = Signal.noSuchTable ∧
    Signal.noSuchTable ≠ Signal.tableOccupied :=
  ⟨Reachable.create _ 1 "Alice" Reachable.init, by decide, by decide, by decide⟩

/-- C4 (amended): on every reachable state (with universe-confined restores),
`create_order` fails with the "no such table" signal both when the table is
outside the universe and when the table is occupied; the "table occupied"
signal is unreachable because an occupied table is never in
`available_tables`, which is checked first. -/
theorem C4_signals (r : Restaurant) (t : Int) (c : String)
    (hr : Reachable recsInUniverse r) :
    (t ∉ initialTables → r.create_order t c = (r, Signal.noSuchTable)) ∧
    (t ∈ alKeys r.orders → r.create_order t c = (r, Signal.noSuchTable)) := by
  constructor
  · intro h
    have hna : t ∉ r.available_tables := fun ha => h ((reachable_univPt hr t).mp (Or.inr ha))
    simp [Restaurant.create_order, hna]
  · intro h
    have hna : t ∉ r.available_tables := (reachable_WF hr).2.2 t h
    simp [Restaurant.create_order, hna]

/-- C4 witness: the amended signal behaviour evaluated on the state with
table 1 occupied. -/
theorem C4_signals_witness :
    Reachable recsInUniverse (Restaurant.init.create_order 1 "Alice").1 ∧
    (1 : ℤ) ∈ alKeys (Restaurant.init.create_order 1 "Alice").1.orders ∧
    (Restaurant.init.create_order 1 "Alice").1.create_order 1 "Bob"
        = ((Restaurant.init.create_order 1 "Alice").1, Signal.noSuchTable) :=
  have hreach : Reachable recsInUniverse (Restaurant.init.create_order 1 "Alice").1 :=
    Reachable.create _ 1 "Alice" Reachable.init
  ⟨hreach, by decide, (C4_signals _ 1 "Bob" hreach).2 (by decide)⟩

/-! Claim C5. -/

/-- C5 counterexample: content that parses as JSON but lacks the expected
record shape raises to the caller.  A menu file whose item record has no
"category" key, and an orders file whose record is an empty object, both
raise `KeyError` past the `except` clauses (which catch only
`FileNotFoundError` and `JSONDecodeError`). -/
theorem C5_counterexample :
    Menu.load_menu ⟨[]⟩
        (ReadFile.content (JVal.jarr [JVal.jobj [("name", JVal.jstr "Tea"),
          ("price", JVal.jnum 2)]]))
        = Except.error PyErr.keyError ∧
    Restaurant.load_orders Restaurant.init (ReadFile.content (JVal.jarr [JVal.jobj []]))
        = Except.error PyErr.keyError :=
  ⟨rfl, rfl⟩

/-- C5 (amended): on a missing file or malformed JSON text (a parse
failure), `load_menu` and `load_orders` never raise and leave the prior
in-memory state unchanged; content that parses as JSON but mis-shapes the
expected records, however, raises to the caller. -/
theorem C5_graceful (m : Menu) (r : Restaurant) :
    m.load_menu ReadFile.fileNotFound = Except.ok m ∧
    m.load_menu ReadFile.jsonDecodeError = Except.ok m ∧
    r.load_orders ReadFile.fileNotFound = Except.ok r ∧
    r.load_orders ReadFile.jsonDecodeError = Except.ok r :=
  ⟨rfl, rfl, rfl, rfl⟩

/-! Claim C6. -/

/-- C6: on every reachable state (with universe-confined restores),
`create_order` on an occupied table or on a table outside the universe
fails — it does not return the success signal — and returns the state
completely unchanged. -/
theorem C6_create_fail_unchanged (r : Restaurant) (t : Int) (c : String)
    (hr : Reachable recsInUniverse r) (h : t ∈ alKeys r.orders ∨ t ∉ initialTables) :
    (r.create_order t c).1 = r ∧ (r.create_order t c).2 ≠ Signal.created := by
  have hna : t ∉ r.available_tables := by
    rcases h with h | h
    · exact (reachable_WF hr).2.2 t h
    · exact fun ha => h ((reachable_univPt hr t).mp (Or.inr ha))
  constructor <;> simp [Restaurant.create_order, hna]

/-- C6 witness: creating on the occupied table 1 fails and leaves the state
unchanged. -/
theorem C6_create_fail_unchanged_witness :
    Reachable recsInUniverse demoCreated ∧
    ((1 : ℤ) ∈ alKeys demoCreated.orders ∨ (1 : ℤ) ∉ initialTables) ∧
    ((demoCreated.create_order 1 "Bob").1 = demoCreated ∧
     (demoCreated.create_order 1 "Bob").2 ≠ Signal.created) :=
  have hreach : Reachable recsInUniverse demoCreated :=
    Reachable.create _ 1 "Alice" (Reachable.loadMenu _ demoMenu.items Reachable.init)
  ⟨hreach, Or.inl (by decide),
    C6_create_fail_unchanged demoCreated 1 "Bob" hreach (Or.inl (by decide))⟩

/-! Claim C7. -/

/-- C7: `remove_item` removes all lines named `n` — none remains — and
preserves every differently-named line in the original relative order: the
result is a sublist of the original lines, contains no line named `n`, and
has exactly as many lines as the original had differently-named ones. -/
theorem C7_remove_item_all (o : Order) (n : String) :
    ((o.remove_item n).items.Sublist o.items) ∧
    (∀ i ∈ (o.remove_item n).items, i.name ≠ JVal.jstr n) ∧
    (o.remove_item n).items.length = o.items.countP (fun i => ! i.name.eqStr n) := by
  refine ⟨List.filter_sublist o.items, ?_, ?_⟩
  · intro i hi he
    have hb := (List.mem_filter.mp hi).2
    rw [he] at hb
    simp [JVal.eqStr] at hb
  · rw [List.countP_eq_length_filter]
    rfl

/-- C7 witness: removing "Cola" from an order holding two "Cola" lines
around a "Tea" line. -/
theorem C7_remove_item_all_witness :
    ((demoOrder.remove_item "Cola").items.Sublist demoOrder.items) ∧
    (∀ i ∈ (demoOrder.remove_item "Cola").items, i.name ≠ JVal.jstr "Cola") ∧
    (demoOrder.remove_item "Cola").items.length
        = demoOrder.items.countP (fun i => ! i.name.eqStr "Cola") :=
  C7_remove_item_all demoOrder "Cola"

/-! Claim C8. -/

/-- C8: `add_to_order` is a no-op with the "no such order" signal when the
table is not occupied; a no-op with the "item not found" signal when the
name resolves to no catalog item; and otherwise appends the first catalog
item of that name to exactly that table's order, leaving every other table
and the available set unchanged. -/
theorem C8_add_to_order (r : Restaurant) (t : Int) (n : String) :
    (t ∉ alKeys r.orders → r.add_to_order t n = (r, Signal.noSuchOrder)) ∧
    (t ∈ alKeys r.orders → r.menu.get_item_by_name n = none →
        r.add_to_order t n = (r, Signal.itemNotFound)) ∧
    (∀ item : MenuItem, t ∈ alKeys r.orders → r.menu.get_item_by_name n = some item →
        (r.add_to_order t n).2 = Signal.itemAdded ∧
        item.name = JVal.jstr n ∧
        (∃ l1 l2, r.menu.items = l1 ++ item :: l2 ∧ ∀ j ∈ l1, j.name ≠ JVal.jstr n) ∧
        alLookup (r.add_to_order t n).1.orders t
            = (alLookup r.orders t).map (fun o => o.add_item item) ∧
        (∀ s : Int, s ≠ t →
            alLookup (r.add_to_order t n).1.orders s = alLookup r.orders s) ∧
        (r.add_to_order t n).1.available_tables = r.available_tables) := by
  refine ⟨?_, ?_, ?_⟩
  · intro h
    simp [Restaurant.add_to_order, h]
  · intro h hi
    simp [Restaurant.add_to_order, h, hi]
  · intro item h hi
    have he : (r.add_to_order t n).1
        = { r with orders := alUpdate r.orders t (fun o => o.add_item item) } := by
      simp [Restaurant.add_to_order, h, hi]
    have hsig : (r.add_to_order t n).2 = Signal.itemAdded := by
      simp [Restaurant.add_to_order, h, hi]
    have hi' : r.menu.items.find? (fun i => i.name.eqStr n) = some item := hi
    obtain ⟨hpa, l1, l2, heq, hl1⟩ := find?_first hi'
    refine ⟨hsig, by simpa using hpa, ⟨l1, l2, heq, ?_⟩, ?_, ?_, ?_⟩
    · intro j hj hje
      have hb := hl1 j hj
      rw [hje] at hb
      simp [JVal.eqStr] at hb
    · rw [he]
      exact alLookup_alUpdate_self r.orders t (fun o => o.add_item item)
    · intro s hs
      rw [he]
      exact alLookup_alUpdate_ne r.orders (fun o => o.add_item item) hs
    · rw [he]

/-- C8 witness: adding "Tea" to the occupied table 1 appends the first
"Tea" of the catalog; other lookups and the available set are untouched. -/
theorem C8_add_to_order_witness :
    (1 : ℤ) ∈ alKeys demoCreated.orders ∧
    demoCreated.menu.get_item_by_name "Tea" = some teaItem ∧
    ((demoCreated.add_to_order 1 "Tea").2 = Signal.itemAdded ∧
     teaItem.name = JVal.jstr "Tea" ∧
     (∃ l1 l2, demoCreated.menu.items = l1 ++ teaItem :: l2 ∧
        ∀ j ∈ l1, j.name ≠ JVal.jstr "Tea") ∧
     alLookup (demoCreated.add_to_order 1 "Tea").1.orders 1
        = (alLookup demoCreated.orders 1).map (fun o => o.add_item teaItem) ∧
     (∀ s : Int, s ≠ 1 →
        alLookup (demoCreated.add_to_order 1 "Tea").1.orders s
          = alLookup demoCreated.orders s) ∧
     (demoCreated.add_to_order 1 "Tea").1.available_tables
        = demoCreated.available_tables) :=
  ⟨by decide, rfl, (C8_add_to_order demoCreated 1 "Tea").2.2 teaItem (by decide) rfl⟩

/-! Claim C9. -/

/-- C9 (code bug): at the top-level command loop, choices "3" and "4" read
the table number with a bare `int(input())` — the non-numeric input "abc"
raises `ValueError` with no handler and escapes `main` — whereas the
wizard's table prompt catches the same failure and returns with no state
change.  The model evaluated at the failing input. -/
theorem C9_main_loop_crash :
    mainStep Restaurant.init "3" "abc" = Except.error PyErr.valueError ∧
    mainStep Restaurant.init "4" "abc" = Except.error PyErr.valueError ∧
    wizardTableInput "abc" = Except.ok none :=
  ⟨rfl, rfl, rfl⟩

/-! Claim C10. -/

/-- C10: once the table is occupied, `remove_from_order` always reports the
removal as performed — it never emits the item-not-found signal — and when
no line of that order matches the name, the order is left unchanged. -/
theorem C10_remove_always_reports (r : Restaurant) (t : Int) (n : String)
    (h : t ∈ alKeys r.orders) :
    (r.remove_from_order t n).2 = Signal.itemRemoved ∧
    (r.remove_from_order t n).2 ≠ Signal.itemNotFound ∧
    (∀ o : Order, alLookup r.orders t = some o →
        (∀ i ∈ o.items, i.name ≠ JVal.jstr n) →
        alLookup (r.remove_from_order t n).1.orders t = some o) := by
  have hsig : (r.remove_from_order t n).2 = Signal.itemRemoved := by
    simp [Restaurant.remove_from_order, h]
  have he : (r.remove_from_order t n).1
      = { r with orders := alUpdate r.orders t (fun o => o.remove_item n) } := by
    simp [Restaurant.remove_from_order, h]
  refine ⟨hsig, by rw [hsig]; simp, ?_⟩
  intro o ho hno
  have hfix : o.remove_item n = o := by
    unfold Order.remove_item
    rw [List.filter_eq_self.mpr (fun i hi => by
      cases hname : i.name.eqStr n
      · simp
      · exact absurd (by simpa using hname) (hno i hi))]
  rw [he, alLookup_alUpdate_self, ho]
  simp [hfix]

/-- C10 witness: removing the absent "Pizza" from table 1's order reports
removal and leaves the order as it was. -/
theorem C10_remove_always_reports_witness :
    (1 : ℤ) ∈ alKeys demoState.orders ∧
    ((demoState.remove_from_order 1 "Pizza").2 = Signal.itemRemoved ∧
     (demoState.remove_from_order 1 "Pizza").2 ≠ Signal.itemNotFound ∧
     (∀ o : Order, alLookup demoState.orders 1 = some o →
        (∀ i ∈ o.items, i.name ≠ JVal.jstr "Pizza") →
        alLookup (demoState.remove_from_order 1 "Pizza").1.orders 1 = some o)) :=
  ⟨by decide, C10_remove_always_reports demoState 1 "Pizza" (by decide)⟩

end RestaurantModel
